import Mathlib

/-!
Verification of the two analysis scripts of the multi-sample metagenomic
assembly repository: the assembly-statistics script (calculate_stats.py)
and the kingdom triage script (triage_contigs_kraken2.py).

The Python source is shallowly embedded: sequence lengths are natural
numbers, taxonomy strings and identifiers are lists of characters, the
classifier mapping dictionary is a function from identifiers to optional
kingdom labels, and the single streaming pass of each script is a fold.
Real-number comparisons performed by Python (the N50 half-total test) are
embedded over the rationals, which coincide with the float comparisons of
the source on all realistic inputs.
-/

/-! ## Assembly statistics (calculate_stats.py) -/

/-- Embedding of the Python comparison `cumsum >= total / 2` from
calculate_n50: the condition that `c` has reached half of `total`, with
the halving done by real-number division (modelled over the rationals). -/
def halfReached (total c : ℕ) : Bool :=
  decide ((total : ℚ) / 2 ≤ (c : ℚ))

/-- Embedding of Python `sorted(lengths, reverse=True)`: sort ascending,
then reverse, which yields the descending order of the multiset. -/
def sortDesc (lengths : List ℕ) : List ℕ :=
  (List.insertionSort (· ≤ ·) lengths).reverse

/-- Embedding of Python `sorted(lengths)` (ascending), as used inside the
median computation of numpy. -/
def sortAsc (lengths : List ℕ) : List ℕ :=
  List.insertionSort (· ≤ ·) lengths

/-- The accumulation loop of calculate_n50: walk the (already sorted)
lengths keeping a running cumulative sum, and return the first length at
which the cumulative sum reaches half of the total; 0 if the list runs
out (Python falls through to `return 0`). -/
def n50_loop (total : ℕ) (cumsum : ℕ) : List ℕ → ℕ
  | [] => 0
  | length :: rest =>
    if halfReached total (cumsum + length) then length
    else n50_loop total (cumsum + length) rest

/-- Embedding of calculate_n50 from calculate_stats.py: sort descending,
take the total, then run the cumulative-sum loop starting from 0. -/
def calculate_n50 (lengths : List ℕ) : ℕ :=
  n50_loop (sortDesc lengths).sum 0 (sortDesc lengths)

/-- Modelled from the words of the specification (reference N50
algorithm, for comparison with calculate_n50): sort the lengths in
descending order, compute the total, and return the value at the first
position whose cumulative sum (sum of the prefix up to and including that
position) reaches or exceeds half of the total, or none when no position
does. -/
def n50_spec (lengths : List ℕ) : Option ℕ :=
  Option.map (fun i => (sortDesc lengths).getD i 0)
    ((List.range (sortDesc lengths).length).find?
      (fun i => halfReached (sortDesc lengths).sum (((sortDesc lengths).take (i + 1)).sum)))

/-- Purely natural-number version of the loop, used to evaluate
calculate_n50 on concrete inputs (the rational comparison of halfReached
does not reduce inside the kernel). -/
def n50_loopN (total : ℕ) (cumsum : ℕ) : List ℕ → ℕ
  | [] => 0
  | length :: rest =>
    if total ≤ 2 * (cumsum + length) then length
    else n50_loopN total (cumsum + length) rest

/-- Embedding of `int(np.median(lengths))`: numpy takes the midpoint of
the sorted data for odd count and the arithmetic mean of the two middle
values for even count; `int` truncates, which on non-negative values is
floor division by 2. -/
def medianReported (lengths : List ℕ) : ℕ :=
  if (sortAsc lengths).length % 2 = 1 then
    (sortAsc lengths).getD ((sortAsc lengths).length / 2) 0
  else
    ((sortAsc lengths).getD ((sortAsc lengths).length / 2 - 1) 0 +
      (sortAsc lengths).getD ((sortAsc lengths).length / 2) 0) / 2

/-- Modelled from the words of the specification (median rule under
comparison): the element at index N / 2, integer division, of the
ascending-sorted list. -/
def medianSpecIndex (lengths : List ℕ) : ℕ :=
  (sortAsc lengths).getD (lengths.length / 2) 0

/-- Embedding of `int(np.mean(lengths))`: the truncated arithmetic mean,
which on natural numbers is floor division of the sum by the count. -/
def meanReported (lengths : List ℕ) : ℕ :=
  lengths.sum / lengths.length

/-- Embedding of Python `max(lengths)`: none on the empty list (where the
Python builtin raises), otherwise the greatest element. -/
def pyMax : List ℕ → Option ℕ
  | [] => none
  | h :: t => some (t.foldl Nat.max h)

/-- Embedding of Python `min(lengths)`: none on the empty list, otherwise
the least element. -/
def pyMin : List ℕ → Option ℕ
  | [] => none
  | h :: t => some (t.foldl Nat.min h)

/-- One printed line of the statistics report of calculate_stats.py,
abstracting away the textual formatting and keeping the numeric
payload of each field. -/
inductive StatLine where
  | noContigs
  | header
  | totalContigs (n : ℕ)
  | totalBases (n : ℕ)
  | longestContig (n : ℕ)
  | shortestContig (n : ℕ)
  | meanLength (n : ℕ)
  | medianLength (n : ℕ)
  | n50Value (n : ℕ)
  | histLine (threshold count : ℕ)
deriving DecidableEq, Repr

/-- The fixed histogram thresholds of calculate_stats.py. -/
def histThresholds : List ℕ := [500, 1000, 5000, 10000, 50000]

/-- Embedding of main from calculate_stats.py, at the level of the report
it prints: the input is the list of sequence lengths collected from the
FASTA records in file order; the output is the sequence of report lines.
An empty collection prints only the no-contigs message and returns. -/
def statsMain (lengths : List ℕ) : List StatLine :=
  if lengths = [] then [StatLine.noContigs]
  else
    [StatLine.header,
     StatLine.totalContigs lengths.length,
     StatLine.totalBases lengths.sum,
     StatLine.longestContig ((pyMax lengths).getD 0),
     StatLine.shortestContig ((pyMin lengths).getD 0),
     StatLine.meanLength (meanReported lengths),
     StatLine.medianLength (medianReported lengths),
     StatLine.n50Value (calculate_n50 lengths)] ++
    histThresholds.map (fun t => StatLine.histLine t (lengths.countP (fun l => t ≤ l)))

theorem halfReached_iff (t c : ℕ) : halfReached t c = true ↔ t ≤ 2 * c := by
  unfold halfReached
  rw [decide_eq_true_iff]
  rw [div_le_iff₀ (by norm_num : (0 : ℚ) < 2)]
  constructor
  · intro h
    have h2 : (t : ℚ) ≤ ((2 * c : ℕ) : ℚ) := by push_cast; linarith
    exact_mod_cast h2
  · intro h
    have h2 : ((t : ℕ) : ℚ) ≤ ((2 * c : ℕ) : ℚ) := by exact_mod_cast h
    push_cast at h2
    linarith

theorem halfReached_eq_decide (t c : ℕ) : halfReached t c = decide (t ≤ 2 * c) := by
  by_cases h : t ≤ 2 * c
  · rw [(halfReached_iff t c).mpr h]
    simp [h]
  · have hne : ¬ halfReached t c = true := fun hh => h ((halfReached_iff t c).mp hh)
    rw [Bool.not_eq_true] at hne
    rw [hne]
    simp [h]

theorem n50_loop_eq_loopN (total : ℕ) :
    ∀ (l : List ℕ) (c : ℕ), n50_loop total c l = n50_loopN total c l := by
  intro l
  induction l with
  | nil => intro c; rfl
  | cons h t ih =>
    intro c
    by_cases hc : total ≤ 2 * (c + h)
    · simp [n50_loop, n50_loopN, halfReached_eq_decide, hc]
    · simp [n50_loop, n50_loopN, halfReached_eq_decide, hc, ih]

theorem calculate_n50_eval (lengths : List ℕ) :
    calculate_n50 lengths = n50_loopN (sortDesc lengths).sum 0 (sortDesc lengths) := by
  unfold calculate_n50
  rw [n50_loop_eq_loopN]

example : calculate_n50 [100, 90, 80, 70, 60, 50, 40, 30, 20, 10] = 70 := by
  rw [calculate_n50_eval]
  decide

theorem getD_eq_elem (l : List ℕ) (i : ℕ) (h : i < l.length) : l.getD i 0 = l[i] := by
  rw [List.getD_eq_getElem?_getD, List.getElem?_eq_getElem h]
  rfl

theorem sortDesc_perm (lengths : List ℕ) : (sortDesc lengths).Perm lengths :=
  (List.reverse_perm _).trans (List.perm_insertionSort _ _)

theorem sortDesc_length (lengths : List ℕ) : (sortDesc lengths).length = lengths.length :=
  (sortDesc_perm lengths).length_eq

theorem sortDesc_sorted (lengths : List ℕ) :
    List.Pairwise (fun a b => b ≤ a) (sortDesc lengths) := by
  rw [sortDesc, List.pairwise_reverse]
  exact List.sorted_insertionSort _ lengths

/-- Full characterization of the cumulative-sum loop: whenever the running
total can reach half (which for the actual call is always true, since the
whole sum reaches half of itself), the loop stops at the first index whose
prefix sum reaches half and returns the element there. -/
theorem n50_loop_spec (total : ℕ) :
    ∀ (l : List ℕ) (c : ℕ), l ≠ [] → halfReached total (c + l.sum) = true →
      ∃ i, ∃ hi : i < l.length,
        n50_loop total c l = l[i] ∧
        halfReached total (c + (l.take (i + 1)).sum) = true ∧
        ∀ j, j < i → halfReached total (c + (l.take (j + 1)).sum) = false := by
  intro l
  induction l with
  | nil => intro c hne _; exact absurd rfl hne
  | cons h t ih =>
    intro c _ htotal
    by_cases hc : halfReached total (c + h) = true
    · refine ⟨0, by simp, ?_, ?_, ?_⟩
      · simp [n50_loop, hc]
      · simpa [List.take_succ_cons] using hc
      · intro j hj; omega
    · rw [Bool.not_eq_true] at hc
      have htne : t ≠ [] := by
        intro ht
        subst ht
        simp only [List.sum_cons, List.sum_nil, Nat.add_zero] at htotal
        rw [htotal] at hc
        cases hc
      have htot2 : halfReached total ((c + h) + t.sum) = true := by
        simpa [Nat.add_assoc] using htotal
      obtain ⟨i, hi, heq, hcond, hfirst⟩ := ih (c + h) htne htot2
      refine ⟨i + 1, by simpa using Nat.succ_lt_succ hi, ?_, ?_, ?_⟩
      · rw [show n50_loop total c (h :: t) = n50_loop total (c + h) t from by
          simp [n50_loop, hc]]
        rw [heq]
        simp
      · simpa [List.take_succ_cons, Nat.add_assoc] using hcond
      · intro j hj
        cases j with
        | zero => simpa [List.take_succ_cons] using hc
        | succ j2 =>
          have hf := hfirst j2 (by omega)
          simpa [List.take_succ_cons, Nat.add_assoc] using hf


/-- Claim C1: for every non-empty list of lengths, calculate_n50 agrees
with the reference algorithm of the specification (sort descending, total,
running cumulative sum, first value whose cumulative sum reaches half the
total under real-number division), and on
[100, 90, 80, 70, 60, 50, 40, 30, 20, 10] the result is 70. -/
theorem calculate_n50_matches_reference :
    (∀ lengths : List ℕ, lengths ≠ [] →
      n50_spec lengths = some (calculate_n50 lengths)) ∧
    calculate_n50 [100, 90, 80, 70, 60, 50, 40, 30, 20, 10] = 70 := by
  constructor
  · intro lengths hne
    have hlenpos : 0 < (sortDesc lengths).length := by
      rw [sortDesc_length]
      exact List.length_pos.mpr hne
    have hsne : sortDesc lengths ≠ [] := List.ne_nil_of_length_pos hlenpos
    have hhalf : halfReached (sortDesc lengths).sum (0 + (sortDesc lengths).sum) = true := by
      rw [halfReached_iff]
      omega
    obtain ⟨i, hi, heq, hcond, hfirst⟩ :=
      n50_loop_spec (sortDesc lengths).sum (sortDesc lengths) 0 hsne hhalf
    have hfind : (List.range (sortDesc lengths).length).find?
        (fun k => halfReached (sortDesc lengths).sum (((sortDesc lengths).take (k + 1)).sum))
        = some i := by
      rw [List.find?_eq_some_iff_getElem]
      refine ⟨by simpa using hcond, i, by simpa using hi, by simp [List.getElem_range], ?_⟩
      intro j hj
      have hf := hfirst j hj
      simp only [List.getElem_range]
      simpa using hf
    unfold n50_spec
    rw [hfind]
    show some ((sortDesc lengths).getD i 0) = some (calculate_n50 lengths)
    unfold calculate_n50
    rw [heq, getD_eq_elem _ _ hi]
  · rw [calculate_n50_eval]
    decide

/-- Witness for C1 at the specification example input. -/
theorem calculate_n50_matches_reference_witness :
    ([100, 90, 80, 70, 60, 50, 40, 30, 20, 10] : List ℕ) ≠ [] ∧
    n50_spec [100, 90, 80, 70, 60, 50, 40, 30, 20, 10] =
      some (calculate_n50 [100, 90, 80, 70, 60, 50, 40, 30, 20, 10]) :=
  ⟨by decide, calculate_n50_matches_reference.1 _ (by decide)⟩

/-- Counterexample to claim C7 as stated: on the input [2, 2, 2] the N50
is 2 and lies in the multiset, but the cumulative sum of the descending
sort taken up to and including the FIRST occurrence of 2 is 2, which is
below half of the total 6. -/
theorem n50_first_occurrence_counterexample :
    ¬ (calculate_n50 [2, 2, 2] ∈ ([2, 2, 2] : List ℕ) ∧
       halfReached ((sortDesc [2, 2, 2]).sum)
         (((sortDesc [2, 2, 2]).take
            (((sortDesc [2, 2, 2]).indexOf (calculate_n50 [2, 2, 2])) + 1)).sum) = true) := by
  intro hclaim
  obtain ⟨_, hhalf⟩ := hclaim
  have h1 : sortDesc [2, 2, 2] = [2, 2, 2] := by decide
  have h2 : calculate_n50 [2, 2, 2] = 2 := by rw [calculate_n50_eval]; decide
  rw [h1, h2] at hhalf
  have h3 : (([2, 2, 2] : List ℕ).take ((([2, 2, 2] : List ℕ).indexOf 2) + 1)).sum = 2 := by
    decide
  have h4 : ([2, 2, 2] : List ℕ).sum = 6 := by decide
  rw [h3, h4, halfReached_eq_decide] at hhalf
  exact absurd hhalf (by decide)

/-- Claim C7 (amended): for every non-empty multiset of lengths, the
value returned by calculate_n50 is an element of the input multiset, and
the cumulative sum over the descending-sorted lengths up to and including
the LAST occurrence of that value — equivalently, the sum of all lengths
greater than or equal to that value — is at least half the total. -/
theorem calculate_n50_mem_and_half (lengths : List ℕ) (hne : lengths ≠ []) :
    calculate_n50 lengths ∈ lengths ∧
    halfReached ((sortDesc lengths).sum)
      (((sortDesc lengths).filter (fun x => decide (calculate_n50 lengths ≤ x))).sum)
      = true := by
  have hlenpos : 0 < (sortDesc lengths).length := by
    rw [sortDesc_length]
    exact List.length_pos.mpr hne
  have hsne : sortDesc lengths ≠ [] := List.ne_nil_of_length_pos hlenpos
  have hhalf : halfReached (sortDesc lengths).sum (0 + (sortDesc lengths).sum) = true := by
    rw [halfReached_iff]
    omega
  obtain ⟨i, hi, heq, hcond, hfirst⟩ :=
    n50_loop_spec (sortDesc lengths).sum (sortDesc lengths) 0 hsne hhalf
  have hv : calculate_n50 lengths = (sortDesc lengths)[i] := by
    unfold calculate_n50
    exact heq
  constructor
  · rw [hv]
    exact (sortDesc_perm lengths).mem_iff.mp (List.getElem_mem hi)
  · rw [hv]
    obtain ⟨v, hgen⟩ : ∃ v, (sortDesc lengths)[i] = v := ⟨_, rfl⟩
    rw [hgen]
    have htake : ∀ x ∈ (sortDesc lengths).take (i + 1), v ≤ x := by
      intro x hx
      rw [← hgen]
      obtain ⟨j, hj, hxe⟩ := List.mem_iff_getElem.mp hx
      have hj2 : j < (sortDesc lengths).length := by
        have := hj
        rw [List.length_take] at this
        omega
      have hji : j ≤ i := by
        have := hj
        rw [List.length_take] at this
        omega
      rw [← hxe, List.getElem_take]
      rcases Nat.lt_or_ge j i with hlt | hge
      · have hpair := (List.pairwise_iff_get.mp (sortDesc_sorted lengths))
          ⟨j, hj2⟩ ⟨i, hi⟩ hlt
        simpa using hpair
      · have hji2 : j = i := by omega
        subst hji2
        exact le_refl _
    have hfilter_take : ((sortDesc lengths).take (i + 1)).filter
        (fun x => decide (v ≤ x)) = (sortDesc lengths).take (i + 1) := by
      rw [List.filter_eq_self]
      intro a ha
      exact decide_eq_true (htake a ha)
    have hsum_split : (((sortDesc lengths).filter (fun x => decide (v ≤ x))).sum)
        = (((sortDesc lengths).take (i + 1)).filter (fun x => decide (v ≤ x))).sum
          + (((sortDesc lengths).drop (i + 1)).filter (fun x => decide (v ≤ x))).sum := by
      conv_lhs => rw [← List.take_append_drop (i + 1) (sortDesc lengths)]
      rw [List.filter_append, List.sum_append]
    have hcond2 : (sortDesc lengths).sum ≤ 2 * ((sortDesc lengths).take (i + 1)).sum := by
      have := (halfReached_iff _ _).mp hcond
      omega
    rw [hfilter_take] at hsum_split
    rw [halfReached_iff]
    omega

/-- Witness for the amended C7 at the input [2, 2, 2]. -/
theorem calculate_n50_mem_and_half_witness :
    calculate_n50 [2, 2, 2] ∈ ([2, 2, 2] : List ℕ) ∧
    halfReached ((sortDesc [2, 2, 2]).sum)
      (((sortDesc [2, 2, 2]).filter (fun x => decide (calculate_n50 [2, 2, 2] ≤ x))).sum)
      = true :=
  calculate_n50_mem_and_half [2, 2, 2] (by decide)

/-- Counterexample to claim C3 as stated: on the even-count input
[1, 2, 4, 5] the pipeline reports int(np.median) = int(3.0) = 3, while
the element at index N / 2 = 2 of the ascending sort is 4 (and the lower
middle value is 2); neither matches the reported value. -/
theorem median_even_counterexample :
    ¬ (medianReported [1, 2, 4, 5] = medianSpecIndex [1, 2, 4, 5]) := by
  decide

/-- Claim C3 (amended): for every non-empty list of lengths with an even
count N, the median reported by the statistics pipeline is the truncated
arithmetic mean of the two middle values of the ascending sort, that is
(s[N / 2 - 1] + s[N / 2]) / 2 with integer (floor) division. -/
theorem medianReported_even_truncated_mean (l : List ℕ) (hne : l ≠ [])
    (hev : l.length % 2 = 0) :
    ∃ h1 : l.length / 2 - 1 < (sortAsc l).length,
      ∃ h2 : l.length / 2 < (sortAsc l).length,
        medianReported l =
          ((sortAsc l).get ⟨l.length / 2 - 1, h1⟩ + (sortAsc l).get ⟨l.length / 2, h2⟩) / 2 := by
  have hlen : (sortAsc l).length = l.length := List.length_insertionSort _ l
  have hpos : 0 < l.length := List.length_pos.mpr hne
  have h2 : l.length / 2 < (sortAsc l).length := by
    rw [hlen]
    exact Nat.div_lt_self hpos (by norm_num)
  have h1 : l.length / 2 - 1 < (sortAsc l).length := by omega
  refine ⟨h1, h2, ?_⟩
  have hodd : ¬ ((sortAsc l).length % 2 = 1) := by omega
  unfold medianReported
  rw [if_neg hodd]
  simp only [hlen]
  rw [getD_eq_elem _ _ h1, getD_eq_elem _ _ h2]
  rw [List.get_eq_getElem, List.get_eq_getElem]

/-- Witness for the amended C3 at the even-count input [1, 2, 4, 5]. -/
theorem medianReported_even_truncated_mean_witness :
    ([1, 2, 4, 5] : List ℕ) ≠ [] ∧ ([1, 2, 4, 5] : List ℕ).length % 2 = 0 ∧
    ∃ h1 : ([1, 2, 4, 5] : List ℕ).length / 2 - 1 < (sortAsc [1, 2, 4, 5]).length,
      ∃ h2 : ([1, 2, 4, 5] : List ℕ).length / 2 < (sortAsc [1, 2, 4, 5]).length,
        medianReported [1, 2, 4, 5] =
          ((sortAsc [1, 2, 4, 5]).get ⟨([1, 2, 4, 5] : List ℕ).length / 2 - 1, h1⟩ +
            (sortAsc [1, 2, 4, 5]).get ⟨([1, 2, 4, 5] : List ℕ).length / 2, h2⟩) / 2 :=
  ⟨by decide, by decide, medianReported_even_truncated_mean [1, 2, 4, 5] (by decide) (by decide)⟩

/-- Claim C9: on an input FASTA yielding zero sequence records the
statistics pipeline outputs exactly the no-contigs message, with none of
the computed statistic fields. -/
theorem statsMain_empty_input : statsMain [] = [StatLine.noContigs] := by
  rfl

/-! ## Kingdom triage (triage_contigs_kraken2.py) -/

/-- The closed set of kingdom labels used by the triage script: the five
taxonomy keyword groups plus Other and Unclassified. -/
inductive Kingdom where
  | Bacteria
  | Viruses
  | Fungi
  | Archaea
  | Eukaryota
  | Other
  | Unclassified
deriving DecidableEq, Repr

/-- The characters removed by Python str.strip with no argument. -/
def isPySpace (c : Char) : Bool :=
  c == ' ' || c == '\t' || c == '\n' || c == '\r' || c == '\x0b' || c == '\x0c'

/-- Embedding of Python line.strip(): remove whitespace from both ends. -/
def pyStrip (s : List Char) : List Char :=
  ((s.dropWhile isPySpace).reverse.dropWhile isPySpace).reverse

/-- Embedding of Python split on a tab separator: consecutive tabs
produce empty fields and the empty input produces one empty field. -/
def splitTab : List Char → List (List Char)
  | [] => [[]]
  | c :: rest =>
    if c = '\t' then [] :: splitTab rest
    else
      match splitTab rest with
      | [] => [[c]]
      | p :: ps => (c :: p) :: ps

/-- Prefix test on character lists, elementwise. -/
def isPrefixChars : List Char → List Char → Bool
  | [], _ => true
  | _ :: _, [] => false
  | a :: as, b :: bs => a == b && isPrefixChars as bs

/-- Embedding of the Python membership test `kw in taxonomy`: the needle
occurs as a contiguous (case-sensitive) substring of the haystack. -/
def containsSub (needle : List Char) : List Char → Bool
  | [] => needle.isEmpty
  | c :: rest => isPrefixChars needle (c :: rest) || containsSub needle rest

/-- The ordered kingdom keyword table of parse_kraken2_output. The source
uses a Python dict, which iterates in insertion order, so the table is an
ordered association list. -/
def kingdom_keywords : List (Kingdom × List (List Char)) :=
  [(Kingdom.Bacteria, ["Bacteria".toList, "bacterium".toList]),
   (Kingdom.Viruses,
     ["Viruses".toList, "Virus".toList, "viridae".toList, "virus".toList,
      "phage".toList, "Phage".toList]),
   (Kingdom.Fungi, ["Fungi".toList, "fungus".toList, "mycota".toList]),
   (Kingdom.Archaea, ["Archaea".toList, "archaeon".toList]),
   (Kingdom.Eukaryota,
     ["Eukaryota".toList, "Metazoa".toList, "Viridiplantae".toList, "Protista".toList])]

/-- The keyword loop of parse_kraken2_output for a classified line: scan
the table in order and stop at the first entry any of whose keywords
occurs in the taxonomy string (the Python loop breaks on first match);
fall back to Other when nothing matches. -/
def classifyLoop (taxonomy : List Char) : List (Kingdom × List (List Char)) → Kingdom
  | [] => Kingdom.Other
  | (k, kws) :: rest =>
    if kws.any (fun kw => containsSub kw taxonomy) then k
    else classifyLoop taxonomy rest

/-- The kingdom chosen for a taxonomy string: run the keyword loop over
the ordered keyword table. -/
def classifyTaxonomy (taxonomy : List Char) : Kingdom :=
  classifyLoop taxonomy kingdom_keywords

/-- Modelled from the words of the specification (classification rule,
for comparison with the dict-driven loop of the source): test the five
keyword sets in the fixed priority order Bacteria, Viruses, Fungi,
Archaea, Eukaryota, assign the first label whose set contains a literal
case-sensitive substring of the taxonomy string, and assign Other when
none match. -/
def classifySpec (taxonomy : List Char) : Kingdom :=
  if ["Bacteria".toList, "bacterium".toList].any
      (fun kw => containsSub kw taxonomy) then Kingdom.Bacteria
  else if ["Viruses".toList, "Virus".toList, "viridae".toList, "virus".toList,
      "phage".toList, "Phage".toList].any
      (fun kw => containsSub kw taxonomy) then Kingdom.Viruses
  else if ["Fungi".toList, "fungus".toList, "mycota".toList].any
      (fun kw => containsSub kw taxonomy) then Kingdom.Fungi
  else if ["Archaea".toList, "archaeon".toList].any
      (fun kw => containsSub kw taxonomy) then Kingdom.Archaea
  else if ["Eukaryota".toList, "Metazoa".toList, "Viridiplantae".toList,
      "Protista".toList].any
      (fun kw => containsSub kw taxonomy) then Kingdom.Eukaryota
  else Kingdom.Other

/-- The contig_kingdoms dictionary: identifiers to kingdom labels. -/
def Kmap : Type := List Char → Option Kingdom

/-- Python dict assignment `d[key] = v`. -/
def mapInsert (m : Kmap) (key : List Char) (v : Kingdom) : Kmap :=
  fun x => if x = key then some v else m x

/-- The empty dictionary. -/
def emptyKmap : Kmap := fun _ => none

/-- Processing of one classifier output line inside parse_kraken2_output:
strip the line, split on tabs, skip the line when it has fewer than 3
fields, otherwise assign Unclassified when the status field is U and the
keyword classification of field 2 otherwise. -/
def parseLine (m : Kmap) (line : List Char) : Kmap :=
  if (splitTab (pyStrip line)).length < 3 then m
  else if (splitTab (pyStrip line)).getD 0 [] = ['U'] then
    mapInsert m ((splitTab (pyStrip line)).getD 1 []) Kingdom.Unclassified
  else
    mapInsert m ((splitTab (pyStrip line)).getD 1 [])
      (classifyTaxonomy ((splitTab (pyStrip line)).getD 2 []))

/-- Embedding of parse_kraken2_output: fold the line processor over the
classifier output lines starting from the empty dictionary. -/
def parse_kraken2_output (lines : List (List Char)) : Kmap :=
  lines.foldl parseLine emptyKmap

theorem classifyTaxonomy_eq_spec (taxonomy : List Char) :
    classifyTaxonomy taxonomy = classifySpec taxonomy := by
  rfl

/-- Claim C2: for every classified (status not U) line with at least three
fields, parse_kraken2_output assigns the identifier the label given by the
fixed priority rule of the specification — the first of Bacteria, Viruses,
Fungi, Archaea, Eukaryota any of whose keywords occurs as a case-sensitive
substring of the taxonomy string, with Other as the fallback — and the
taxonomy string containing both a Bacteria and a Viruses keyword is
classified Bacteria. -/
theorem parse_priority_order :
    (∀ (m : Kmap) (line status cid taxonomy : List Char) (rest : List (List Char)),
      splitTab (pyStrip line) = status :: cid :: taxonomy :: rest →
      status ≠ ['U'] →
      parseLine m line = mapInsert m cid (classifySpec taxonomy)) ∧
    classifyTaxonomy "Bacteria; Siphoviridae; virus".toList = Kingdom.Bacteria := by
  constructor
  · intro m line status cid taxonomy rest hsplit hstat
    unfold parseLine
    rw [hsplit]
    have hlen : ¬ ((status :: cid :: taxonomy :: rest).length < 3) := by
      simp only [List.length_cons]
      omega
    rw [if_neg hlen]
    simp only [List.getD_cons_zero, List.getD_cons_succ]
    rw [if_neg hstat]
    rw [classifyTaxonomy_eq_spec]
  · decide

/-- Witness for C2 on a concrete classified line. -/
theorem parse_priority_order_witness :
    splitTab (pyStrip "C\tcontig_1\tBacteria; Firmicutes".toList) =
      "C".toList :: "contig_1".toList :: "Bacteria; Firmicutes".toList :: [] ∧
    "C".toList ≠ (['U'] : List Char) ∧
    parseLine emptyKmap "C\tcontig_1\tBacteria; Firmicutes".toList =
      mapInsert emptyKmap "contig_1".toList (classifySpec "Bacteria; Firmicutes".toList) :=
  ⟨by decide, by decide,
    parse_priority_order.1 emptyKmap "C\tcontig_1\tBacteria; Firmicutes".toList
      "C".toList "contig_1".toList "Bacteria; Firmicutes".toList []
      (by decide) (by decide)⟩

/-- Counterexample to claim C4 as stated: the exact line `U<tab>contig_7<tab>`
is NOT mapped to Unclassified — Python str.strip removes the trailing tab,
the stripped line splits into only 2 fields, and the line is skipped, so
contig_7 is absent from the resulting dictionary. -/
theorem unclassified_example_counterexample :
    ¬ (parse_kraken2_output ["U\tcontig_7\t".toList] "contig_7".toList
        = some Kingdom.Unclassified) := by
  decide

/-- Claim C4 (amended): every classifier line whose stripped form has at
least 3 tab-separated fields and whose status field is U maps its
identifier to Unclassified regardless of the taxonomy text; the specific
line `U<tab>contig_7<tab>` instead is skipped, because stripping removes
the trailing tab and leaves only 2 fields. -/
theorem parse_unclassified_status (m : Kmap) (line cid taxonomy : List Char)
    (rest : List (List Char))
    (hsplit : splitTab (pyStrip line) = ['U'] :: cid :: taxonomy :: rest) :
    parseLine m line = mapInsert m cid Kingdom.Unclassified := by
  unfold parseLine
  rw [hsplit]
  have hlen : ¬ ((['U'] :: cid :: taxonomy :: rest).length < 3) := by
    simp only [List.length_cons]
    omega
  rw [if_neg hlen]
  simp only [List.getD_cons_zero, List.getD_cons_succ]
  simp

/-- Witness for the amended C4: a status-U line with three fields maps its
identifier to Unclassified. -/
theorem parse_unclassified_status_witness :
    splitTab (pyStrip "U\tcontig_7\tsome taxonomy".toList) =
      (['U'] : List Char) :: "contig_7".toList :: "some taxonomy".toList :: [] ∧
    parseLine emptyKmap "U\tcontig_7\tsome taxonomy".toList =
      mapInsert emptyKmap "contig_7".toList Kingdom.Unclassified :=
  ⟨by decide,
    parse_unclassified_status emptyKmap "U\tcontig_7\tsome taxonomy".toList
      "contig_7".toList "some taxonomy".toList [] (by decide)⟩

/-- Claim C6: lines with fewer than 3 tab-separated fields (after the
strip performed by the parser) are skipped without error and do not
affect the mapping: parsing any line sequence gives the same dictionary
as parsing the sequence with all short lines removed. -/
theorem short_lines_skipped (lines : List (List Char)) :
    parse_kraken2_output lines =
      parse_kraken2_output
        (lines.filter (fun l => decide (3 ≤ (splitTab (pyStrip l)).length))) := by
  have key : ∀ (ls : List (List Char)) (m : Kmap),
      ls.foldl parseLine m =
        (ls.filter (fun l => decide (3 ≤ (splitTab (pyStrip l)).length))).foldl parseLine m := by
    intro ls
    induction ls with
    | nil => intro m; rfl
    | cons l ls ih =>
      intro m
      by_cases hl : 3 ≤ (splitTab (pyStrip l)).length
      · simp only [List.filter_cons, decide_eq_true hl, List.foldl_cons]
        exact ih (parseLine m l)
      · have hskip : parseLine m l = m := by
          unfold parseLine
          rw [if_pos (by omega)]
        have hdec : decide (3 ≤ (splitTab (pyStrip l)).length) = false :=
          decide_eq_false hl
        simp only [List.filter_cons, hdec, List.foldl_cons, hskip]
        exact ih m
  exact key lines emptyKmap

/-- A FASTA sequence record: identifier and raw sequence. -/
structure SeqRecord where
  id : List Char
  seq : List Char
deriving DecidableEq, Repr

/-- The per-kingdom accumulator of write_kingdom_fastas: the defaultdict
value with count 0, total bases 0 and an empty length list. -/
structure BucketStats where
  count : ℕ
  total_bp : ℕ
  lengths : List ℕ
deriving DecidableEq, Repr

/-- The default accumulator created on first touch of a kingdom. -/
def initBucket : BucketStats := { count := 0, total_bp := 0, lengths := [] }

/-- The fixed list of the seven kingdoms, in the order the script opens
output files and prints the summary. -/
def kingdoms : List Kingdom :=
  [Kingdom.Bacteria, Kingdom.Viruses, Kingdom.Fungi, Kingdom.Archaea,
   Kingdom.Eukaryota, Kingdom.Other, Kingdom.Unclassified]

/-- The state of the partition pass: the records written to each kingdom
output file so far, and the per-kingdom statistics. -/
structure TriageState where
  files : Kingdom → List SeqRecord
  stats : Kingdom → BucketStats

/-- Initial state: all seven output files open and empty, all
accumulators at their default. -/
def initTriage : TriageState :=
  { files := fun _ => [], stats := fun _ => initBucket }

/-- The kingdom looked up for a record:
contig_kingdoms.get(record.id, Unclassified). -/
def recordKingdom (contig_kingdoms : Kmap) (r : SeqRecord) : Kingdom :=
  (contig_kingdoms r.id).getD Kingdom.Unclassified

/-- One iteration of the record loop of write_kingdom_fastas: write the
record to the file of its kingdom and update the statistics of that
kingdom with the sequence length. -/
def triageStep (contig_kingdoms : Kmap) (st : TriageState) (r : SeqRecord) : TriageState :=
  { files := fun k =>
      if k = recordKingdom contig_kingdoms r then st.files k ++ [r] else st.files k,
    stats := fun k =>
      if k = recordKingdom contig_kingdoms r then
        { count := (st.stats k).count + 1,
          total_bp := (st.stats k).total_bp + r.seq.length,
          lengths := (st.stats k).lengths ++ [r.seq.length] }
      else st.stats k }

/-- Embedding of write_kingdom_fastas: a single fold of the record loop
over the FASTA records in file order. -/
def write_kingdom_fastas (fasta_records : List SeqRecord) (contig_kingdoms : Kmap) :
    TriageState :=
  fasta_records.foldl (triageStep contig_kingdoms) initTriage

/-- One row of the summary table of print_summary, for a kingdom with at
least one contig: count, total bases, average length (real division) and
maximum length (none when the length list is empty, where Python max
would raise). -/
structure SummaryRow where
  kingdom : Kingdom
  count : ℕ
  total_bp : ℕ
  avg_length : ℚ
  max_length : Option ℕ

/-- Embedding of the table loop of print_summary: one row per kingdom in
the fixed order, skipping kingdoms with no contigs. -/
def print_summary_rows (stats : Kingdom → BucketStats) : List SummaryRow :=
  kingdoms.filterMap (fun k =>
    if 0 < (stats k).count then
      some { kingdom := k,
             count := (stats k).count,
             total_bp := (stats k).total_bp,
             avg_length := ((stats k).total_bp : ℚ) / ((stats k).count : ℚ),
             max_length := pyMax (stats k).lengths }
    else none)

theorem files_fold (contig_kingdoms : Kmap) :
    ∀ (rs : List SeqRecord) (st : TriageState) (k : Kingdom),
      ((rs.foldl (triageStep contig_kingdoms) st).files k) =
        st.files k ++ rs.filter (fun r => decide (recordKingdom contig_kingdoms r = k)) := by
  intro rs
  induction rs with
  | nil => intro st k; simp
  | cons r rs ih =>
    intro st k
    rw [List.foldl_cons, ih]
    by_cases hk : recordKingdom contig_kingdoms r = k
    · have hk2 : k = recordKingdom contig_kingdoms r := hk.symm
      simp [triageStep, if_pos hk2, List.filter_cons, decide_eq_true hk]
    · have hk2 : ¬ (k = recordKingdom contig_kingdoms r) := fun h => hk h.symm
      simp [triageStep, if_neg hk2, List.filter_cons, decide_eq_false hk]

theorem stats_fold (contig_kingdoms : Kmap) :
    ∀ (rs : List SeqRecord) (st : TriageState) (k : Kingdom),
      ((rs.foldl (triageStep contig_kingdoms) st).stats k) =
        { count := (st.stats k).count +
            (rs.filter (fun r => decide (recordKingdom contig_kingdoms r = k))).length,
          total_bp := (st.stats k).total_bp +
            ((rs.filter (fun r => decide (recordKingdom contig_kingdoms r = k))).map
              (fun r => r.seq.length)).sum,
          lengths := (st.stats k).lengths ++
            (rs.filter (fun r => decide (recordKingdom contig_kingdoms r = k))).map
              (fun r => r.seq.length) } := by
  intro rs
  induction rs with
  | nil => intro st k; simp
  | cons r rs ih =>
    intro st k
    rw [List.foldl_cons, ih]
    by_cases hk : recordKingdom contig_kingdoms r = k
    · have hk2 : k = recordKingdom contig_kingdoms r := hk.symm
      simp [triageStep, if_pos hk2, List.filter_cons, decide_eq_true hk]
      omega
    · have hk2 : ¬ (k = recordKingdom contig_kingdoms r) := fun h => hk h.symm
      simp [triageStep, if_neg hk2, List.filter_cons, decide_eq_false hk]

theorem sum_map_add_kingdoms (f g : Kingdom → ℕ) (ks : List Kingdom) :
    (ks.map (fun k => f k + g k)).sum = (ks.map f).sum + (ks.map g).sum := by
  induction ks with
  | nil => simp
  | cons k ks ih =>
    simp only [List.map_cons, List.sum_cons, ih]
    omega

theorem partition_sum (contig_kingdoms : Kmap) (μ : SeqRecord → ℕ) :
    ∀ rs : List SeqRecord,
      (kingdoms.map (fun k =>
        ((rs.filter (fun r => decide (recordKingdom contig_kingdoms r = k))).map μ).sum)).sum
        = (rs.map μ).sum := by
  intro rs
  induction rs with
  | nil => simp [kingdoms]
  | cons r rs ih =>
    have hsplit : ∀ k : Kingdom,
        (((r :: rs).filter (fun x => decide (recordKingdom contig_kingdoms x = k))).map μ).sum
          = (if recordKingdom contig_kingdoms r = k then μ r else 0) +
            ((rs.filter (fun x => decide (recordKingdom contig_kingdoms x = k))).map μ).sum := by
      intro k
      by_cases h : recordKingdom contig_kingdoms r = k
      · simp [List.filter_cons, decide_eq_true h, h]
      · simp [List.filter_cons, decide_eq_false h, h]
    simp only [hsplit]
    rw [sum_map_add_kingdoms]
    have hind : (kingdoms.map (fun k =>
        if recordKingdom contig_kingdoms r = k then μ r else 0)).sum = μ r := by
      cases hrk : recordKingdom contig_kingdoms r <;> simp [kingdoms, hrk]
    rw [hind, ih]
    simp

theorem length_eq_map_one_sum {α : Type} (l : List α) :
    l.length = (l.map (fun _ => (1 : ℕ))).sum := by
  induction l with
  | nil => rfl
  | cons a l ih =>
    simp only [List.length_cons, List.map_cons, List.sum_cons, ih]
    omega

/-- Claim C5: the partitioner sends every record to exactly one of the
seven kingdom output files — each file holds exactly the records whose
looked-up kingdom (defaulting to Unclassified for identifiers absent from
the map) equals the kingdom of that file — and the record counts over the
seven kingdoms sum to the number of input records. -/
theorem partition_totality (fasta_records : List SeqRecord) (contig_kingdoms : Kmap) :
    (∀ k : Kingdom,
      (write_kingdom_fastas fasta_records contig_kingdoms).files k =
        fasta_records.filter (fun r => decide (recordKingdom contig_kingdoms r = k))) ∧
    (kingdoms.map (fun k =>
        ((write_kingdom_fastas fasta_records contig_kingdoms).files k).length)).sum
      = fasta_records.length := by
  have hfiles : ∀ k, (write_kingdom_fastas fasta_records contig_kingdoms).files k =
      fasta_records.filter (fun r => decide (recordKingdom contig_kingdoms r = k)) := by
    intro k
    unfold write_kingdom_fastas
    rw [files_fold]
    simp [initTriage]
  refine ⟨hfiles, ?_⟩
  simp only [hfiles]
  simp only [length_eq_map_one_sum]
  exact partition_sum contig_kingdoms (fun _ => 1) fasta_records

/-- Claim C8: the sum of total_bp over the seven kingdom buckets equals
the sum of the sequence lengths over all input records. -/
theorem partition_total_bp (fasta_records : List SeqRecord) (contig_kingdoms : Kmap) :
    (kingdoms.map (fun k =>
        ((write_kingdom_fastas fasta_records contig_kingdoms).stats k).total_bp)).sum
      = (fasta_records.map (fun r => r.seq.length)).sum := by
  have hstats : ∀ k : Kingdom,
      ((write_kingdom_fastas fasta_records contig_kingdoms).stats k).total_bp =
        ((fasta_records.filter
            (fun r => decide (recordKingdom contig_kingdoms r = k))).map
          (fun r => r.seq.length)).sum := by
    intro k
    unfold write_kingdom_fastas
    rw [stats_fold]
    simp [initTriage, initBucket]
  simp only [hstats]
  exact partition_sum contig_kingdoms (fun r => r.seq.length) fasta_records

/-- Claim C10: after the partition pass every bucket is internally
consistent — its count equals the length of its lengths list and its
total_bp equals the sum of that list — and therefore every row of the
summary table (printed only for buckets with count > 0) has a nonzero
divisor for the average and a maximum taken of a non-empty list. -/
theorem bucket_stats_invariant (fasta_records : List SeqRecord) (contig_kingdoms : Kmap) :
    (∀ k : Kingdom,
      ((write_kingdom_fastas fasta_records contig_kingdoms).stats k).count =
        ((write_kingdom_fastas fasta_records contig_kingdoms).stats k).lengths.length ∧
      ((write_kingdom_fastas fasta_records contig_kingdoms).stats k).total_bp =
        ((write_kingdom_fastas fasta_records contig_kingdoms).stats k).lengths.sum) ∧
    (∀ row ∈ print_summary_rows
        (write_kingdom_fastas fasta_records contig_kingdoms).stats,
      row.count ≠ 0 ∧ row.max_length.isSome = true) := by
  have hstats : ∀ k : Kingdom,
      (write_kingdom_fastas fasta_records contig_kingdoms).stats k =
        { count := (fasta_records.filter
              (fun r => decide (recordKingdom contig_kingdoms r = k))).length,
          total_bp := ((fasta_records.filter
              (fun r => decide (recordKingdom contig_kingdoms r = k))).map
            (fun r => r.seq.length)).sum,
          lengths := (fasta_records.filter
              (fun r => decide (recordKingdom contig_kingdoms r = k))).map
            (fun r => r.seq.length) } := by
    intro k
    unfold write_kingdom_fastas
    rw [stats_fold]
    simp [initTriage, initBucket]
  have hconsistent : ∀ k : Kingdom,
      ((write_kingdom_fastas fasta_records contig_kingdoms).stats k).count =
        ((write_kingdom_fastas fasta_records contig_kingdoms).stats k).lengths.length ∧
      ((write_kingdom_fastas fasta_records contig_kingdoms).stats k).total_bp =
        ((write_kingdom_fastas fasta_records contig_kingdoms).stats k).lengths.sum := by
    intro k
    rw [hstats k]
    simp [List.length_map]
  refine ⟨hconsistent, ?_⟩
  intro row hrow
  obtain ⟨k, hkmem, hfk⟩ := List.mem_filterMap.mp hrow
  by_cases hcount :
      0 < ((write_kingdom_fastas fasta_records contig_kingdoms).stats k).count
  · rw [if_pos hcount] at hfk
    have hrow_eq := (Option.some.injEq _ _).mp hfk
    have hcount_row : row.count =
        ((write_kingdom_fastas fasta_records contig_kingdoms).stats k).count := by
      rw [← hrow_eq]
    have hmax_row : row.max_length =
        pyMax ((write_kingdom_fastas fasta_records contig_kingdoms).stats k).lengths := by
      rw [← hrow_eq]
    constructor
    · rw [hcount_row]
      omega
    · rw [hmax_row]
      have hlenpos :
          0 < ((write_kingdom_fastas fasta_records contig_kingdoms).stats k).lengths.length := by
        rw [← (hconsistent k).1]
        exact hcount
      cases hlens :
          ((write_kingdom_fastas fasta_records contig_kingdoms).stats k).lengths with
      | nil => rw [hlens] at hlenpos; simp at hlenpos
      | cons a t => simp [pyMax]
  · rw [if_neg hcount] at hfk
    cases hfk

/-- A one-record sample input used to witness the bucket invariant. -/
def sampleRecords : List SeqRecord := [{ id := "c1".toList, seq := "ACGT".toList }]

/-- The sample bucket produced by triaging the sample input with an empty
dictionary: everything lands in Unclassified. -/
def sampleBucket : BucketStats :=
  (write_kingdom_fastas sampleRecords emptyKmap).stats Kingdom.Unclassified

/-- Witness for C10: a single unclassified record produces one summary
row, whose count is nonzero and whose maximum is defined. -/
theorem bucket_stats_invariant_witness :
    ∃ row, row ∈ print_summary_rows
        (write_kingdom_fastas sampleRecords emptyKmap).stats ∧
      row.count ≠ 0 ∧ row.max_length.isSome = true := by
  have hcount : 0 < sampleBucket.count := by decide
  have hmem : SummaryRow.mk Kingdom.Unclassified sampleBucket.count sampleBucket.total_bp
        ((sampleBucket.total_bp : ℚ) / (sampleBucket.count : ℚ)) (pyMax sampleBucket.lengths) ∈
      print_summary_rows (write_kingdom_fastas sampleRecords emptyKmap).stats :=
    List.mem_filterMap.mpr ⟨Kingdom.Unclassified, by decide, if_pos hcount⟩
  exact ⟨_, hmem, (bucket_stats_invariant sampleRecords emptyKmap).2 _ hmem⟩
